import Mathlib

/-!
Verification of the progress-bar controller in `cp-bar.go` (muesli/mc).

Modelling conventions:
* Go strings are byte sequences; we embed them as `List Nat` (each entry a
  byte value) so that `len`, indexing and slicing match Go's byte-level
  semantics.
* Go `int64` / `int` values are embedded as `Int`; the claims under study
  concern guard/arithmetic structure, not 64-bit wrap-around.
* Go `rune` (`int32`) is embedded as `Int`; the conversion `byte(r)` takes
  the low 8 bits, i.e. `r % 256` with a non-negative remainder.
* The third-party `pb` bar is an external collaborator; per the design
  interface it exposes "set total, add delta, set absolute position, start,
  finish".  Its observable counters (`Total`, the current position) are
  carried as fields of the actor state, with `Add64` adding and `Set64`
  setting the position.
-/

/-- Byte values of the Go string literal `"..."` used as the ellipsis marker. -/
def ellipsisBytes : List Nat := [46, 46, 46]

/-- Go `byte(r)` for a rune `r`: the low 8 bits, a value in `[0, 256)`. -/
def sepByte (r : Int) : Nat := (r % 256).toNat

/-- Embedding of `strings.IndexByte`: the index of the first occurrence of
byte `b` in `s`, or `-1` when `b` does not occur. -/
def indexByte (s : List Nat) (b : Nat) : Int :=
  match s with
  | [] => -1
  | x :: xs =>
      if x = b then 0
      else if 0 ≤ indexByte xs b then indexByte xs b + 1 else -1

/-- Embedding of the Go struct `caption`: a message (byte string) and a
separator rune. -/
structure caption where
  message : List Nat
  separator : Int
  deriving DecidableEq

/-- Embedding of `trimBarCaption` from `cp-bar.go`:

    if len(c.message) > width {
        trimSize := len(c.message) - width + 3 + 1
        if trimSize < len(c.message) {
            c.message = "..." + c.message[trimSize:]
            partialTrimSize := strings.IndexByte(c.message, byte(c.separator))
            if partialTrimSize > 0 {
                c.message = c.message[partialTrimSize:]
            }
        }
    }
    return c.message
-/
def trimBarCaption (c : caption) (width : Int) : List Nat :=
  if (c.message.length : Int) > width then
    let trimSize : Int := (c.message.length : Int) - width + 3 + 1
    if trimSize < (c.message.length : Int) then
      let msg := ellipsisBytes ++ c.message.drop trimSize.toNat
      let pTrim := indexByte msg (sepByte c.separator)
      if 0 < pTrim then msg.drop pTrim.toNat else msg
    else c.message
  else c.message

/-- Go slicing `s[i:]` with Go's panic behaviour made explicit: `none` when
`i` is outside `[0, len s]`, otherwise the suffix from `i`. -/
def goSliceFrom (s : List Nat) (i : Int) : Option (List Nat) :=
  if 0 ≤ i ∧ i ≤ (s.length : Int) then some (s.drop i.toNat) else none

/-- `trimBarCaption` with every Go slice expression routed through
`goSliceFrom`, so that a would-be runtime panic surfaces as `none`. -/
def trimBarCaptionChecked (c : caption) (width : Int) : Option (List Nat) :=
  if (c.message.length : Int) > width then
    let trimSize : Int := (c.message.length : Int) - width + 3 + 1
    if trimSize < (c.message.length : Int) then
      (goSliceFrom c.message trimSize).bind (fun tail =>
        let msg := ellipsisBytes ++ tail
        let pTrim := indexByte msg (sepByte c.separator)
        if 0 < pTrim then goSliceFrom msg pTrim else some msg)
    else some c.message
  else some c.message

/-- The trimming procedure exactly as the specification words it (step 2 of
§4.4 computes `trimSize = length(message) - width + 4`; steps 3–4 build the
ellipsis candidate and strip up to the first separator occurrence when it is
at a positive index).  Written from the spec's words, to be compared with the
source-derived `trimBarCaption`. -/
def trimBarCaptionClaim (c : caption) (width : Int) : List Nat :=
  let trimSize : Int := (c.message.length : Int) - width + 4
  if trimSize < (c.message.length : Int) then
    let candidate := ellipsisBytes ++ c.message.drop trimSize.toNat
    let i := indexByte candidate (sepByte c.separator)
    if 0 < i then candidate.drop i.toNat else candidate
  else c.message

theorem indexByte_lt_length (s : List Nat) (b : Nat) (h : 0 ≤ indexByte s b) :
    indexByte s b < (s.length : Int) := by
  induction s with
  | nil => simp [indexByte] at h
  | cons x xs ih =>
    simp only [indexByte] at h ⊢
    by_cases hx : x = b
    · simp only [if_pos hx, List.length_cons]
      omega
    · simp only [if_neg hx] at h ⊢
      by_cases hr : 0 ≤ indexByte xs b
      · have := ih hr
        simp only [if_pos hr] at h ⊢
        simp [List.length_cons]
        omega
      · simp only [if_neg hr] at h
        omega

theorem trimBarCaption_of_fits (c : caption) (w : Int)
    (h : (c.message.length : Int) ≤ w) : trimBarCaption c w = c.message := by
  unfold trimBarCaption
  rw [if_neg (by omega)]

theorem trimBarCaption_of_narrow (c : caption) (w : Int) (h : w ≤ 4) :
    trimBarCaption c w = c.message := by
  unfold trimBarCaption
  by_cases hgt : (c.message.length : Int) > w
  · rw [if_pos hgt]
    simp only []
    rw [if_neg (by omega)]
  · rw [if_neg hgt]

theorem trimBarCaption_len_le (c : caption) (w : Int) (h5 : 5 ≤ w) :
    ((trimBarCaption c w).length : Int) ≤ w := by
  unfold trimBarCaption
  by_cases hgt : (c.message.length : Int) > w
  · rw [if_pos hgt]
    simp only []
    rw [if_pos (by omega)]
    set msg := ellipsisBytes ++
      c.message.drop ((c.message.length : Int) - w + 3 + 1).toNat with hmsg
    have hmlen : (msg.length : Int) = w - 1 := by
      rw [hmsg, List.length_append, List.length_drop]
      simp only [ellipsisBytes, List.length_cons, List.length_nil]
      omega
    split
    · rw [List.length_drop]
      omega
    · omega
  · rw [if_neg hgt]
    omega

/-- Claim C1 counterexample: at width 4 with the 5-byte message "hello"
(separator '/'), the trimming guard `trimSize < len(message)` fails, the
message is returned unchanged, and its length 5 exceeds the width 4 — so
the claimed "result length at most width, for every width" is false. -/
theorem trimBarCaption_C1_counterexample :
    ¬ (((trimBarCaption { message := [104, 101, 108, 108, 111], separator := 47 } 4).length : Int) ≤ 4) := by
  decide

/-- Claim C1 (amended): a message that already fits is returned unchanged;
trimming is idempotent; the result length is at most the width whenever the
width is at least 5 (for widths at most 4 the trimming guard fails and the
message is always returned unchanged, so an over-long message keeps its
length). -/
theorem trimBarCaption_fits_idem_len (c : caption) (w : Int) :
    ((c.message.length : Int) ≤ w → trimBarCaption c w = c.message) ∧
    trimBarCaption { message := trimBarCaption c w, separator := c.separator } w
      = trimBarCaption c w ∧
    (5 ≤ w → ((trimBarCaption c w).length : Int) ≤ w) ∧
    (w ≤ 4 → trimBarCaption c w = c.message) := by
  refine ⟨trimBarCaption_of_fits c w, ?_, trimBarCaption_len_le c w,
    trimBarCaption_of_narrow c w⟩
  by_cases h5 : 5 ≤ w
  · exact trimBarCaption_of_fits _ w (trimBarCaption_len_le c w h5)
  · exact trimBarCaption_of_narrow _ w (by omega)

/-- Witness for the amended C1 at a concrete input: the fitting message
"hello" at width 10 is returned unchanged. -/
theorem trimBarCaption_fits_idem_len_witness :
    trimBarCaption { message := [104, 101, 108, 108, 111], separator := 47 } 10
      = [104, 101, 108, 108, 111] :=
  (trimBarCaption_fits_idem_len
    { message := [104, 101, 108, 108, 111], separator := 47 } 10).1 (by decide)

/-- Claim C3: on every over-long caption the source trimming function agrees
with the trimming procedure as the specification words it (trimSize =
length - width + 4; ellipsis candidate; strip up to a positive first
separator index). -/
theorem trimBarCaption_refines_claim (c : caption) (w : Int)
    (h : (c.message.length : Int) > w) :
    trimBarCaption c w = trimBarCaptionClaim c w := by
  have h34 : (c.message.length : Int) - w + 3 + 1 = (c.message.length : Int) - w + 4 := by
    ring
  unfold trimBarCaption trimBarCaptionClaim
  rw [if_pos h]
  simp only []
  rw [h34]

/-- Witness for C3 at the spec's concrete scenario: message "/a/bb/ccc/dddd",
separator '/', width 10. -/
theorem trimBarCaption_refines_claim_witness :
    trimBarCaption
        { message := [47, 97, 47, 98, 98, 47, 99, 99, 99, 47, 100, 100, 100, 100],
          separator := 47 } 10
      = trimBarCaptionClaim
        { message := [47, 97, 47, 98, 98, 47, 99, 99, 99, 47, 100, 100, 100, 100],
          separator := 47 } 10 :=
  trimBarCaption_refines_claim
    { message := [47, 97, 47, 98, 98, 47, 99, 99, 99, 47, 100, 100, 100, 100],
      separator := 47 } 10 (by decide)

/-- Claim C9: the trimming function never panics — with Go's slice bounds
made explicit, every caption and every width (negative, zero, or positive)
produce `some` result, equal to the unchecked function's result; in
particular every slice index used is within bounds. -/
theorem trimBarCaptionChecked_eq_some (c : caption) (w : Int) :
    trimBarCaptionChecked c w = some (trimBarCaption c w) := by
  by_cases hgt : (c.message.length : Int) > w
  · by_cases hts : (c.message.length : Int) - w + 3 + 1 < (c.message.length : Int)
    · have hsl : goSliceFrom c.message ((c.message.length : Int) - w + 3 + 1)
          = some (c.message.drop ((c.message.length : Int) - w + 3 + 1).toNat) := by
        unfold goSliceFrom
        rw [if_pos ⟨by omega, by omega⟩]
      simp only [trimBarCaptionChecked, trimBarCaption, if_pos hgt, if_pos hts, hsl,
        Option.some_bind]
      set msg := ellipsisBytes ++
        c.message.drop ((c.message.length : Int) - w + 3 + 1).toNat with hmsg
      by_cases hi : 0 < indexByte msg (sepByte c.separator)
      · have hlt := indexByte_lt_length msg (sepByte c.separator) (le_of_lt hi)
        simp only [if_pos hi]
        unfold goSliceFrom
        rw [if_pos ⟨by omega, by omega⟩]
      · simp only [if_neg hi]
    · simp only [trimBarCaptionChecked, trimBarCaption, if_pos hgt, if_neg hts]
  · simp only [trimBarCaptionChecked, trimBarCaption, if_neg hgt]

/-- Embedding of the command vocabulary (`cpBarCmd` plus the `barMsg`
argument): Extend, Progress, PutError (ErrorOnWrite), GetError (ErrorOnRead),
SetCaption, Finish. -/
inductive BarCmd where
  | extend (total : Int)
  | progress (delta : Int)
  | putError (size : Int)
  | getError (size : Int)
  | setCaption (c : caption)
  | finish
  deriving DecidableEq

/-- The actor-private state of the `newCpBar` goroutine: the loop-local
variables (`started`, `redraw`, `barCaption`, `totalBytesRead`) together with
the observable counters of the external `pb` bar (`total` = `bar.Total`,
`current` = the displayed position), plus bookkeeping for the shutdown
protocol: whether `bar.Finish()` has been invoked (`barFinished`), how many
times `true` was sent on `finishCh` (`finishSignals`), and whether the loop
has returned (`finished`). -/
structure BarState where
  started : Bool
  redraw : Bool
  barCaption : List Nat
  totalBytesRead : Int
  total : Int
  current : Int
  barFinished : Bool
  finishSignals : Nat
  finished : Bool
  deriving DecidableEq

/-- The state at actor start-up: fresh loop variables and `pb.New64(0)`. -/
def initBarState : BarState :=
  { started := false, redraw := false, barCaption := [], totalBytesRead := 0,
    total := 0, current := 0, barFinished := false, finishSignals := 0,
    finished := false }

/-- One iteration of the actor's command switch in `newCpBar`, at terminal
width `w` (`bar.GetWidth()`).  `bar.Add64` adds to the displayed position,
`bar.Set64` sets it, `atomic.AddInt64(&bar.Total, t)` adds to the total. -/
def cpBarStep (w : Int) (s : BarState) (m : BarCmd) : BarState :=
  match m with
  | BarCmd.setCaption c => { s with barCaption := trimBarCaption c w }
  | BarCmd.extend t => { s with total := s.total + t }
  | BarCmd.progress d =>
      let s1 := if 0 < s.total ∧ s.started = false then
          { s with started := true, redraw := true }
        else s
      if 0 < d then
        { s1 with totalBytesRead := s1.totalBytesRead + d,
                  current := s1.current + d }
      else s1
  | BarCmd.putError size =>
      let s1 : BarState := { s with redraw := true }
      if size < s1.totalBytesRead then
        { s1 with current := s1.totalBytesRead - size }
      else s1
  | BarCmd.getError size =>
      let s1 : BarState := { s with redraw := true }
      if 0 < size then { s1 with current := s1.current + size } else s1
  | BarCmd.finish =>
      { s with barFinished := s.barFinished || s.started,
               finishSignals := s.finishSignals + 1, finished := true }

/-- The actor's receive loop: commands are processed in arrival order; after
the loop has returned (`finished`) no further command is processed. -/
def cpBarRun (w : Int) (s : BarState) : List BarCmd → BarState
  | [] => s
  | m :: ms => if s.finished then s else cpBarRun w (cpBarStep w s m) ms

/-- The amount a single command adds to `bar.Total`: the argument of an
Extend command, zero for every other command. -/
def extendArg : BarCmd → Int
  | BarCmd.extend t => t
  | _ => 0

/-- The sum of the Extend arguments occurring in a command sequence. -/
def extendSum : List BarCmd → Int
  | [] => 0
  | m :: ms => extendArg m + extendSum ms

theorem cpBarStep_total (w : Int) (s : BarState) (m : BarCmd) :
    (cpBarStep w s m).total = s.total + extendArg m := by
  cases m with
  | setCaption c => simp [cpBarStep, extendArg]
  | extend t => simp [cpBarStep, extendArg]
  | progress d =>
      simp only [cpBarStep, extendArg]
      by_cases h1 : 0 < s.total ∧ s.started = false <;>
        by_cases h2 : 0 < d <;> simp [h1, h2]
  | putError sz =>
      simp only [cpBarStep, extendArg]
      split <;> simp
  | getError sz =>
      simp only [cpBarStep, extendArg]
      split <;> simp
  | finish => simp [cpBarStep, extendArg]

theorem cpBarStep_preserves_shutdown (w : Int) (s : BarState) (m : BarCmd)
    (hm : m ≠ BarCmd.finish) :
    (cpBarStep w s m).finished = s.finished ∧
    (cpBarStep w s m).finishSignals = s.finishSignals ∧
    (cpBarStep w s m).barFinished = s.barFinished := by
  cases m with
  | setCaption c => simp [cpBarStep]
  | extend t => simp [cpBarStep]
  | progress d =>
      simp only [cpBarStep]
      by_cases h1 : 0 < s.total ∧ s.started = false <;>
        by_cases h2 : 0 < d <;> simp [h1, h2]
  | putError sz =>
      simp only [cpBarStep]
      split <;> simp
  | getError sz =>
      simp only [cpBarStep]
      split <;> simp
  | finish => exact absurd rfl hm

theorem cpBarRun_of_finished (w : Int) (s : BarState) (l : List BarCmd)
    (h : s.finished = true) : cpBarRun w s l = s := by
  cases l with
  | nil => rfl
  | cons m ms => simp [cpBarRun, h]

theorem cpBarRun_append (w : Int) (s : BarState) (l1 l2 : List BarCmd) :
    cpBarRun w s (l1 ++ l2) = cpBarRun w (cpBarRun w s l1) l2 := by
  induction l1 generalizing s with
  | nil => rfl
  | cons m ms ih =>
    simp only [List.cons_append, cpBarRun]
    by_cases h : s.finished = true
    · rw [if_pos h, if_pos h, cpBarRun_of_finished w s l2 h]
    · rw [if_neg h, if_neg h]
      exact ih (cpBarStep w s m)

theorem cpBarRun_no_finish (w : Int) (l : List BarCmd) :
    ∀ s : BarState, BarCmd.finish ∉ l →
    (cpBarRun w s l).finished = s.finished ∧
    (cpBarRun w s l).finishSignals = s.finishSignals ∧
    (cpBarRun w s l).barFinished = s.barFinished := by
  induction l with
  | nil => exact fun s _ => ⟨rfl, rfl, rfl⟩
  | cons m ms ih =>
    intro s hl
    have hm : m ≠ BarCmd.finish := by
      intro h
      exact hl (h ▸ List.mem_cons_self m ms)
    have hms : BarCmd.finish ∉ ms := fun h => hl (List.mem_cons_of_mem m h)
    by_cases hf : s.finished = true
    · simp [cpBarRun, hf]
    · have hstep := cpBarStep_preserves_shutdown w s m hm
      have hrec := ih (cpBarStep w s m) hms
      simp only [cpBarRun]
      rw [if_neg hf]
      exact ⟨hrec.1.trans hstep.1, hrec.2.1.trans hstep.2.1,
        hrec.2.2.trans hstep.2.2⟩

theorem cpBarStep_started_mono (w : Int) (s : BarState) (m : BarCmd)
    (h : s.started = true) : (cpBarStep w s m).started = true := by
  cases m with
  | setCaption c => exact h
  | extend t => exact h
  | progress d =>
      have h1 : ¬ (0 < s.total ∧ s.started = false) := by simp [h]
      simp only [cpBarStep, if_neg h1]
      split <;> exact h
  | putError sz =>
      simp only [cpBarStep]
      split <;> exact h
  | getError sz =>
      simp only [cpBarStep]
      split <;> exact h
  | finish => exact h

theorem cpBarRun_started_mono (w : Int) (l : List BarCmd) :
    ∀ s : BarState, s.started = true → (cpBarRun w s l).started = true := by
  induction l with
  | nil => exact fun s h => h
  | cons m ms ih =>
    intro s h
    simp only [cpBarRun]
    split
    · exact h
    · exact ih _ (cpBarStep_started_mono w s m h)

theorem cpBarStep_started_flip (w : Int) (s : BarState) (m : BarCmd)
    (h : s.started = false) :
    ((cpBarStep w s m).started = true ↔
      (∃ d, m = BarCmd.progress d) ∧ 0 < s.total) := by
  cases m with
  | setCaption c => simp [cpBarStep, h]
  | extend t => simp [cpBarStep, h]
  | progress d =>
      simp only [cpBarStep]
      by_cases h1 : 0 < s.total <;>
        by_cases h2 : 0 < d <;> simp [h1, h2, h]
  | putError sz =>
      simp only [cpBarStep]
      split <;> simp [h]
  | getError sz =>
      simp only [cpBarStep]
      split <;> simp [h]
  | finish => simp [cpBarStep, h]

theorem cpBarRun_progress_sum (w : Int) (ds : List Int) :
    ∀ s : BarState, s.finished = false → (∀ d ∈ ds, 0 ≤ d) →
    (cpBarRun w s (ds.map BarCmd.progress)).current = s.current + ds.sum := by
  induction ds with
  | nil =>
    intro s _ _
    simp [cpBarRun]
  | cons d ds ih =>
    intro s hf hds
    simp only [List.map_cons, cpBarRun]
    rw [if_neg (by simp [hf])]
    have hfd : (cpBarStep w s (BarCmd.progress d)).finished = false := by
      have hp := cpBarStep_preserves_shutdown w s (BarCmd.progress d) (by simp)
      rw [hp.1, hf]
    rw [ih _ hfd (fun x hx => hds x (List.mem_cons_of_mem d hx))]
    have hd : 0 ≤ d := hds d (List.mem_cons_self d ds)
    have hcur : (cpBarStep w s (BarCmd.progress d)).current = s.current + d := by
      simp only [cpBarStep]
      by_cases h1 : 0 < s.total ∧ s.started = false <;>
        by_cases h2 : 0 < d <;> simp [h1, h2] <;> omega
    rw [hcur, List.sum_cons]
    ring

/-- Claim C2 counterexample: after Extend(10) then ErrorOnRead(5) the
displayed position is 5 while `totalBytesRead` is still 0; processing
ErrorOnWrite(3) with position 5 > 3 leaves the position at 5 instead of
decreasing it by 3, because the guard and the correction use
`totalBytesRead`, not the displayed position. -/
theorem cpBarPutError_counterexample :
    (cpBarRun 80 initBarState [BarCmd.extend 10, BarCmd.getError 5]).current > 3 ∧
    ¬ ((cpBarStep 80 (cpBarRun 80 initBarState [BarCmd.extend 10, BarCmd.getError 5])
          (BarCmd.putError 3)).current
        = (cpBarRun 80 initBarState [BarCmd.extend 10, BarCmd.getError 5]).current - 3) := by
  decide

/-- Claim C2 (amended): ErrorOnWrite(size) never drives the displayed
position below zero; whenever the cumulative byte counter `totalBytesRead`
is strictly greater than `size` before the command, the position after
equals `totalBytesRead - size` — in particular, when the displayed position
coincides with `totalBytesRead` (no prior error corrections) and it exceeds
`size`, the position decreases by exactly `size`. -/
theorem cpBarPutError_amended (w : Int) (s : BarState) (size : Int) :
    (0 ≤ s.current → 0 ≤ (cpBarStep w s (BarCmd.putError size)).current) ∧
    (size < s.totalBytesRead →
      (cpBarStep w s (BarCmd.putError size)).current = s.totalBytesRead - size) ∧
    (s.current = s.totalBytesRead → size < s.current →
      (cpBarStep w s (BarCmd.putError size)).current = s.current - size) := by
  simp only [cpBarStep]
  by_cases h : size < s.totalBytesRead <;> simp [h] <;> intros <;> omega

/-- Witness for the amended C2: after Extend(10), Progress(5) both the
position and `totalBytesRead` are 5; ErrorOnWrite(3) sets the position to
5 - 3 = 2. -/
theorem cpBarPutError_amended_witness :
    (cpBarStep 80 (cpBarRun 80 initBarState [BarCmd.extend 10, BarCmd.progress 5])
       (BarCmd.putError 3)).current = 2 := by
  have h := (cpBarPutError_amended 80
    (cpBarRun 80 initBarState [BarCmd.extend 10, BarCmd.progress 5]) 3).2.1 (by decide)
  rw [h]
  decide

/-- Claim C4: the `started` flag, once set, is never cleared over any
continuation of the run (so the bar starts at most once); a step sets the
flag exactly when the command is a Progress and the accumulated total is
positive; and for a sequence of Progress commands with non-negative deltas
from the initial state, the final position is their sum. -/
theorem cpBar_started_once_sum :
    (∀ (w : Int) (s : BarState) (l : List BarCmd), s.started = true →
      (cpBarRun w s l).started = true) ∧
    (∀ (w : Int) (s : BarState) (m : BarCmd), s.started = false →
      ((cpBarStep w s m).started = true ↔
        (∃ d, m = BarCmd.progress d) ∧ 0 < s.total)) ∧
    (∀ (w : Int) (ds : List Int), (∀ d ∈ ds, 0 ≤ d) →
      (cpBarRun w initBarState (ds.map BarCmd.progress)).current = ds.sum) := by
  refine ⟨fun w s l h => cpBarRun_started_mono w l s h,
          fun w s m h => cpBarStep_started_flip w s m h,
          fun w ds h => ?_⟩
  have hs := cpBarRun_progress_sum w ds initBarState rfl h
  simpa [initBarState] using hs

/-- Witness for C4: Progress(1), Progress(2), Progress(3) from the initial
state leave the position at 6. -/
theorem cpBar_started_once_sum_witness :
    (cpBarRun 80 initBarState ([1, 2, 3].map BarCmd.progress)).current = 6 := by
  have h := cpBar_started_once_sum.2.2 80 [1, 2, 3] (by decide)
  rw [h]
  decide

/-- Claim C5: over any command sequence free of Finish, starting from any
live state, the bar total grows by exactly the sum of the Extend arguments:
each Extend adds its argument and no other command changes the total. -/
theorem cpBarExtend_total_sum (w : Int) (l : List BarCmd) :
    ∀ s : BarState, BarCmd.finish ∉ l → s.finished = false →
    (cpBarRun w s l).total = s.total + extendSum l := by
  induction l with
  | nil =>
    intro s _ _
    simp [cpBarRun, extendSum]
  | cons m ms ih =>
    intro s hl hf
    have hm : m ≠ BarCmd.finish := by
      intro h
      exact hl (h ▸ List.mem_cons_self m ms)
    have hms : BarCmd.finish ∉ ms := fun h => hl (List.mem_cons_of_mem m h)
    have hfd : (cpBarStep w s m).finished = false :=
      ((cpBarStep_preserves_shutdown w s m hm).1).trans hf
    simp only [cpBarRun]
    rw [if_neg (by simp [hf]), ih (cpBarStep w s m) hms hfd, cpBarStep_total]
    simp only [extendSum]
    ring

/-- Witness for C5: Extend(3), Progress(2), Extend(4) from the initial state
leave the total at 7. -/
theorem cpBarExtend_total_sum_witness :
    (cpBarRun 80 initBarState
        [BarCmd.extend 3, BarCmd.progress 2, BarCmd.extend 4]).total = 7 := by
  have h := cpBarExtend_total_sum 80
    [BarCmd.extend 3, BarCmd.progress 2, BarCmd.extend 4] initBarState
    (by decide) rfl
  rw [h]
  decide

/-- Claim C6: ErrorOnRead(size) always forces a redraw; with a positive size
it advances the displayed position by exactly that size, otherwise it leaves
the position unchanged. -/
theorem cpBarGetError_spec (w : Int) (s : BarState) (size : Int) :
    (cpBarStep w s (BarCmd.getError size)).redraw = true ∧
    (0 < size → (cpBarStep w s (BarCmd.getError size)).current = s.current + size) ∧
    (size ≤ 0 → (cpBarStep w s (BarCmd.getError size)).current = s.current) := by
  simp only [cpBarStep]
  by_cases h : 0 < size <;> simp [h]

/-- Witness for C6: ErrorOnRead(7) on the initial state advances the
position by 7 and sets the redraw flag. -/
theorem cpBarGetError_spec_witness :
    (cpBarStep 80 initBarState (BarCmd.getError 7)).redraw = true ∧
    (cpBarStep 80 initBarState (BarCmd.getError 7)).current
      = initBarState.current + 7 :=
  ⟨(cpBarGetError_spec 80 initBarState 7).1,
   (cpBarGetError_spec 80 initBarState 7).2.1 (by decide)⟩

/-- Claim C10: a step changes `totalBytesRead` only if the command is a
Progress with a positive delta; ErrorOnWrite and ErrorOnRead leave
`totalBytesRead` untouched; and the ErrorOnWrite correction is computed
from `totalBytesRead`, not from the displayed position. -/
theorem cpBarTotalBytesRead_frame (w : Int) (s : BarState) (m : BarCmd) :
    ((cpBarStep w s m).totalBytesRead ≠ s.totalBytesRead →
      ∃ d, m = BarCmd.progress d ∧ 0 < d) ∧
    (∀ size, (cpBarStep w s (BarCmd.putError size)).totalBytesRead
      = s.totalBytesRead) ∧
    (∀ size, (cpBarStep w s (BarCmd.getError size)).totalBytesRead
      = s.totalBytesRead) ∧
    (∀ size, size < s.totalBytesRead →
      (cpBarStep w s (BarCmd.putError size)).current
        = s.totalBytesRead - size) := by
  refine ⟨?_, ?_, ?_, ?_⟩
  · intro hne
    cases m with
    | setCaption c => exact absurd rfl hne
    | extend t => exact absurd rfl hne
    | progress d =>
        refine ⟨d, rfl, ?_⟩
        by_cases h2 : 0 < d
        · exact h2
        · exfalso
          apply hne
          simp only [cpBarStep]
          by_cases h1 : 0 < s.total ∧ s.started = false <;> simp [h1, h2]
    | putError sz =>
        exfalso
        apply hne
        simp only [cpBarStep]
        split <;> simp
    | getError sz =>
        exfalso
        apply hne
        simp only [cpBarStep]
        split <;> simp
    | finish => exact absurd rfl hne
  · intro size
    simp only [cpBarStep]
    split <;> simp
  · intro size
    simp only [cpBarStep]
    split <;> simp
  · intro size hsz
    simp only [cpBarStep]
    rw [if_pos (by simpa using hsz)]

/-- Witness for C10: ErrorOnWrite(3) in a state with `totalBytesRead` = 5
leaves `totalBytesRead` at 5 and sets the position to 5 - 3. -/
theorem cpBarTotalBytesRead_frame_witness :
    (cpBarStep 80 (cpBarRun 80 initBarState [BarCmd.extend 10, BarCmd.progress 5])
        (BarCmd.putError 3)).totalBytesRead
      = (cpBarRun 80 initBarState [BarCmd.extend 10, BarCmd.progress 5]).totalBytesRead ∧
    (cpBarStep 80 (cpBarRun 80 initBarState [BarCmd.extend 10, BarCmd.progress 5])
        (BarCmd.putError 3)).current
      = (cpBarRun 80 initBarState [BarCmd.extend 10, BarCmd.progress 5]).totalBytesRead - 3 :=
  ⟨(cpBarTotalBytesRead_frame 80
      (cpBarRun 80 initBarState [BarCmd.extend 10, BarCmd.progress 5])
      (BarCmd.putError 3)).2.1 3,
   (cpBarTotalBytesRead_frame 80
      (cpBarRun 80 initBarState [BarCmd.extend 10, BarCmd.progress 5])
      (BarCmd.putError 3)).2.2.2 3 (by decide)⟩

/-- The result of one call on a wrapped byte source: the byte count, the
error (or none), and the source's remaining state. -/
structure ReadResult (ρ : Type) where
  n : Int
  err : Option Nat
  rest : ρ

/-- Embedding of `copyReader.Read`: delegate to the wrapped reader, report
the byte count actually read as a Progress command through the held handle
(appending it to the list of commands sent so far), and return the wrapped
reader's result unchanged. -/
def copyReaderRead {ρ : Type} (read : ρ → ReadResult ρ) (st : ρ)
    (sent : List BarCmd) : ReadResult ρ × List BarCmd :=
  let r := read st
  (r, sent ++ [BarCmd.progress r.n])

/-- Claim C7: for every wrapped source and state, the instrumented read
returns the wrapped source's count/error/rest unchanged and sends exactly
one Progress command carrying the count actually read (zero included). -/
theorem copyReaderRead_passthrough {ρ : Type} (read : ρ → ReadResult ρ)
    (st : ρ) (sent : List BarCmd) :
    (copyReaderRead read st sent).1 = read st ∧
    (copyReaderRead read st sent).1.n = (read st).n ∧
    (copyReaderRead read st sent).1.err = (read st).err ∧
    (copyReaderRead read st sent).2 = sent ++ [BarCmd.progress (read st).n] :=
  ⟨rfl, rfl, rfl, rfl⟩

/-- The three channel operations performed by the caller-side
`barSend.Finish`. -/
inductive FinishOp where
  | sendFinish
  | recvSignal
  | closeCmdCh
  deriving DecidableEq

/-- Operation order of `barSend.Finish`: the body sends the Finish command
and then blocks receiving the completion signal; `defer close(b.cmdCh)` runs
only when the function returns, so the channel close comes last. -/
def barSendFinishTrace : List FinishOp :=
  [FinishOp.sendFinish, FinishOp.recvSignal, FinishOp.closeCmdCh]

/-- Claim C8: processing Finish after any Finish-free command prefix calls
the bar's final render exactly when the bar had been started, signals
completion exactly once, marks the loop as returned, and any commands after
Finish leave the state untouched (the actor processes nothing further); on
the caller side the operation order is: enqueue Finish, await the completion
signal, close the command channel. -/
theorem cpBarFinish_protocol (w : Int) (cmds suffix : List BarCmd)
    (h : BarCmd.finish ∉ cmds) :
    (cpBarRun w initBarState (cmds ++ [BarCmd.finish])).barFinished
      = (cpBarRun w initBarState cmds).started ∧
    (cpBarRun w initBarState (cmds ++ [BarCmd.finish])).finishSignals = 1 ∧
    (cpBarRun w initBarState (cmds ++ [BarCmd.finish])).finished = true ∧
    cpBarRun w initBarState (cmds ++ BarCmd.finish :: suffix)
      = cpBarRun w initBarState (cmds ++ [BarCmd.finish]) ∧
    barSendFinishTrace
      = [FinishOp.sendFinish, FinishOp.recvSignal, FinishOp.closeCmdCh] := by
  have hrun := cpBarRun_no_finish w cmds initBarState h
  have hfin : (cpBarRun w initBarState cmds).finished = false := hrun.1.trans rfl
  have hsig : (cpBarRun w initBarState cmds).finishSignals = 0 := hrun.2.1.trans rfl
  have hbf : (cpBarRun w initBarState cmds).barFinished = false := hrun.2.2.trans rfl
  have happ : cpBarRun w initBarState (cmds ++ [BarCmd.finish])
      = cpBarStep w (cpBarRun w initBarState cmds) BarCmd.finish := by
    rw [cpBarRun_append]
    simp [cpBarRun, hfin]
  refine ⟨?_, ?_, ?_, ?_, rfl⟩
  · rw [happ]
    simp only [cpBarStep]
    rw [hbf]
    simp
  · rw [happ]
    simp only [cpBarStep]
    rw [hsig]
  · rw [happ]
    simp [cpBarStep]
  · have hassoc : cmds ++ BarCmd.finish :: suffix
        = (cmds ++ [BarCmd.finish]) ++ suffix := by
      simp
    rw [hassoc, cpBarRun_append]
    apply cpBarRun_of_finished
    rw [happ]
    simp [cpBarStep]

/-- Witness for C8 after the prefix Extend(1), Progress(1): Finish signals
completion once and a trailing Extend(5) after Finish changes nothing. -/
theorem cpBarFinish_protocol_witness :
    (cpBarRun 80 initBarState
        ([BarCmd.extend 1, BarCmd.progress 1] ++ [BarCmd.finish])).finishSignals = 1 ∧
    cpBarRun 80 initBarState
        ([BarCmd.extend 1, BarCmd.progress 1] ++ BarCmd.finish :: [BarCmd.extend 5])
      = cpBarRun 80 initBarState
        ([BarCmd.extend 1, BarCmd.progress 1] ++ [BarCmd.finish]) :=
  ⟨(cpBarFinish_protocol 80 [BarCmd.extend 1, BarCmd.progress 1]
      [BarCmd.extend 5] (by decide)).2.1,
   (cpBarFinish_protocol 80 [BarCmd.extend 1, BarCmd.progress 1]
      [BarCmd.extend 5] (by decide)).2.2.2.1⟩
